import Mathlib

/-!
Verification of the body-text extraction and layout-filtering pipeline of the
pdf-to-audio-converter repository (src/filter.py and the OCR fallback path of
src/main.py).

Conventions of the embedding:
* Python numbers are modelled as integers `ℤ`: the Vision API bounding-box
  vertices consumed by `parse_ocr_data` carry integer pixel coordinates, so
  the glyph heights `max(ys) - min(ys)` are integers, and the Jenks breaks of
  an integer sample are themselves sample values (the collaborator returns
  the sample's minimum, interior cut values drawn from the sample, and its
  maximum). Every operation the pipeline performs on these numbers is
  order-theoretic (comparison, max, min, subtraction), so `ℤ` is faithful.
* A Python function that can raise an exception is modelled as returning
  `Option`: `none` is an uncaught exception (IndexError from `breaks[1]` /
  `breaks[2]`, ValueError from `max()` / `min()` of an empty sequence), and
  `some v` is a normal return of `v`.
* The Jenks natural-breaks clustering routine is a third-party collaborator
  (the `jenkspy` library); it is modelled as an abstract function parameter
  `jenks : List ℤ → ℕ → Option (List ℤ)` whose contract (`JenksOk`) is the
  band-count contract of the specification: on a non-empty sample and a class
  count between 1 and the number of distinct values it succeeds and returns
  `n_classes + 1` boundary values.
-/

namespace PdfToAudio

/-- A 2D vertex of a word's bounding polygon (fields `x`, `y` as in the
Vision API objects consumed by `parse_ocr_data`). -/
structure Vertex where
  x : ℤ
  y : ℤ
deriving DecidableEq, Repr

/-- An OCR symbol: carries one glyph's text. -/
structure Symbol where
  text : String
deriving DecidableEq, Repr

/-- A word's bounding polygon: an ordered list of vertices. -/
structure BoundingBox where
  vertices : List Vertex
deriving DecidableEq, Repr

/-- An OCR word: its symbols in order and its bounding polygon. -/
structure Word where
  symbols : List Symbol
  bounding_box : BoundingBox
deriving DecidableEq, Repr

/-- An OCR paragraph: its words in order. -/
structure Paragraph where
  words : List Word
deriving DecidableEq, Repr

/-- An OCR block: its paragraphs in order. -/
structure Block where
  paragraphs : List Paragraph
deriving DecidableEq, Repr

/-- An OCR page: its blocks in order. -/
structure Page where
  blocks : List Block
deriving DecidableEq, Repr

/-- The whole hierarchical OCR result (the `ocr_annotation` argument of
`parse_ocr_data`): its pages in order. -/
structure OcrData where
  pages : List Page
deriving DecidableEq, Repr

/-- The word's text: `"".join(symbol.text for symbol in word.symbols)`. -/
def wordText (w : Word) : String :=
  String.join (w.symbols.map Symbol.text)

/-- The y-coordinates of the word's bounding-polygon vertices:
`ys = [v.y for v in word.bounding_box.vertices]`. -/
def yCoords (w : Word) : List ℤ :=
  w.bounding_box.vertices.map Vertex.y

/-- Python `max(l)`: `none` on the empty list (ValueError), otherwise the
greatest element. -/
def listMax : List ℤ → Option ℤ
  | [] => none
  | x :: xs => some (xs.foldl max x)

/-- Python `min(l)`: `none` on the empty list (ValueError), otherwise the
least element. -/
def listMin : List ℤ → Option ℤ
  | [] => none
  | x :: xs => some (xs.foldl min x)

/-- The body of the innermost loop of `parse_ocr_data`: the word's text and
`max(ys) - min(ys)`; fails (Python ValueError) when the bounding polygon has
no vertices. -/
def parseWord (w : Word) : Option (String × ℤ) :=
  match listMax (yCoords w), listMin (yCoords w) with
  | some mx, some mn => some (wordText w, mx - mn)
  | _, _ => none

/-- The innermost loop of `parse_ocr_data` run over a list of words in order,
aborting at the first failing word (an uncaught exception ends the whole
traversal). -/
def parseWords : List Word → Option (List (String × ℤ))
  | [] => some []
  | w :: ws =>
    match parseWord w, parseWords ws with
    | some p, some ps => some (p :: ps)
    | _, _ => none

/-- The document's words in reading order: the four nested loops of
`parse_ocr_data` (page-major, then block, then paragraph, then word). -/
def docWords (d : OcrData) : List Word :=
  ((d.pages.map fun pg =>
    ((pg.blocks.map fun b =>
      (b.paragraphs.map Paragraph.words).flatten).flatten)).flatten)

/-- `parse_ocr_data` (src/filter.py lines 3-13): flattens the OCR hierarchy
into the parallel lists `words` and `sizes`. -/
def parse_ocr_data (d : OcrData) : Option (List String × List ℤ) :=
  (parseWords (docWords d)).map fun ps => (ps.map Prod.fst, ps.map Prod.snd)

/-- `len(set(sizes))`: the number of distinct values in the list. -/
def distinctCount (sizes : List ℤ) : ℕ :=
  sizes.dedup.length

/-- `cluster_body_sizes` (src/filter.py lines 15-28), parameterised by the
external `jenkspy.jenks_breaks` collaborator `jenks`. -/
def cluster_body_sizes (jenks : List ℤ → ℕ → Option (List ℤ))
    (sizes : List ℤ) (n_classes : ℕ := 3) : Option (List ℤ) :=
  let unique_sizes := distinctCount sizes
  if unique_sizes = 0 then
    some []
  else if unique_sizes < n_classes then
    jenks sizes (max 1 unique_sizes)
  else
    jenks sizes n_classes

/-- `filter_body_words` (src/filter.py lines 30-31):
`[w for (w, s) in words_and_sizes if breaks[1] < s <= breaks[2]]`.
Python evaluates the chained comparison left to right and short-circuits:
`breaks[1]` is read for every pair, but `breaks[2]` only when
`breaks[1] < s` held; a missing index raises IndexError (`none`). -/
def filter_body_words : List (String × ℤ) → List ℤ → Option (List String)
  | [], _ => some []
  | (w, s) :: rest, breaks => do
    let b1 ← breaks[1]?
    if b1 < s then
      let b2 ← breaks[2]?
      let ws ← filter_body_words rest breaks
      pure (if s ≤ b2 then w :: ws else ws)
    else
      filter_body_words rest breaks

/-- The OCR fallback path of `process_document_endpoint` (src/main.py lines
339-341): parse, cluster with the default band count, filter the zipped
pairs, and space-join the surviving words into the text handed to the
speech-synthesis collaborator. -/
def ocr_raw_text (jenks : List ℤ → ℕ → Option (List ℤ)) (d : OcrData) :
    Option String := do
  let (words, sizes) ← parse_ocr_data d
  let breaks ← cluster_body_sizes jenks sizes
  let body ← filter_body_words (words.zip sizes) breaks
  pure (String.intercalate " " body)

/-- The specification's band-count contract for the clustering collaborator
(spec §4.2 Contract A / §6): on a non-empty sample, asked for a class count
between 1 and the number of distinct values, it succeeds and returns
`n_classes + 1` boundary values. -/
def JenksOk (jenks : List ℤ → ℕ → Option (List ℤ)) : Prop :=
  ∀ s k, s ≠ [] → 1 ≤ k → k ≤ distinctCount s →
    ∃ bs, jenks s k = some bs ∧ bs.length = k + 1

/-- The word's height as the spec states it: `max(vertex.y) - min(vertex.y)`
over the bounding-polygon vertices (with the irrelevant default 0 on an
empty polygon, where the code raises instead). -/
def heightD (w : Word) : ℤ :=
  ((listMax (yCoords w)).getD 0) - ((listMin (yCoords w)).getD 0)

/-- A word built from symbol texts and vertex y-coordinates. -/
def mkWord (texts : List String) (ys : List ℤ) : Word :=
  { symbols := texts.map Symbol.mk
    bounding_box := ⟨ys.map fun y => ⟨0, y⟩⟩ }

/-- A page holding one block with one paragraph with one word. -/
def onePage (w : Word) : Page :=
  ⟨[⟨[⟨[w]⟩]⟩]⟩

/-- The spec's order-preservation scenario: two pages, each with a single
block/paragraph/word — "Alpha" of height 10 and "Beta" of height 50. -/
def sampleDoc : OcrData :=
  ⟨[onePage (mkWord ["Al", "pha"] [0, 10]),
    onePage (mkWord ["Be", "ta"] [3, 53])]⟩

/-- An OCR result with no pages at all (zero words). -/
def emptyDoc : OcrData := ⟨[]⟩

/-- An OCR result whose single word has an empty bounding polygon (zero
vertices) — the structural violation of spec §7. -/
def emptyPolygonDoc : OcrData :=
  ⟨[onePage (mkWord ["x"] [])]⟩

/-- An OCR result whose single word has no symbols but does carry one
vertex. -/
def noSymbolsDoc : OcrData :=
  ⟨[onePage (mkWord [] [5])]⟩

/-- A trivial clustering collaborator used to witness contract-parameterised
theorems: it always returns `k + 1` zero boundaries. -/
def jenksReplicate : List ℤ → ℕ → Option (List ℤ) :=
  fun _ k => some (List.replicate (k + 1) 0)

/-- A clustering stub returning the 2-element breaks `[20, 20]` (what
`jenkspy.jenks_breaks([20,20,20], n_classes=1)` yields). -/
def jenksConst2 : List ℤ → ℕ → Option (List ℤ) :=
  fun _ _ => some [20, 20]

/-- A clustering stub returning the 3-element breaks `[0, 20, 60]`. -/
def jenksConst3 : List ℤ → ℕ → Option (List ℤ) :=
  fun _ _ => some [0, 20, 60]

/-! ## Helper lemmas -/

theorem jenksReplicate_ok : JenksOk jenksReplicate :=
  fun _ k _ _ _ => ⟨List.replicate (k + 1) 0, rfl, List.length_replicate _ _⟩

theorem distinctCount_eq_zero {s : List ℤ} :
    distinctCount s = 0 ↔ s = [] := by
  unfold distinctCount
  rw [List.length_eq_zero, List.dedup_eq_nil s]

theorem distinctCount_pos {s : List ℤ} (h : s ≠ []) :
    1 ≤ distinctCount s :=
  Nat.pos_of_ne_zero fun h0 => h (distinctCount_eq_zero.mp h0)

theorem filter_body_words_eq_filter {breaks : List ℤ} {b1 b2 : ℤ}
    (h1 : breaks[1]? = some b1) (h2 : breaks[2]? = some b2) :
    ∀ ws : List (String × ℤ),
      filter_body_words ws breaks =
        some ((ws.filter fun p => decide (b1 < p.2 ∧ p.2 ≤ b2)).map Prod.fst)
  | [] => rfl
  | (w, s) :: rest => by
    have ih := filter_body_words_eq_filter h1 h2 rest
    simp only [filter_body_words, h1, h2, ih, Option.some_bind, List.filter]
    by_cases hlt : b1 < s
    · by_cases hle : s ≤ b2
      · simp [hlt, hle]
      · simp [hlt, hle]
    · simp [hlt]

theorem filter_body_words_skip {breaks : List ℤ} {b1 : ℤ}
    (h1 : breaks[1]? = some b1) :
    ∀ ws : List (String × ℤ), (∀ p ∈ ws, p.2 ≤ b1) →
      filter_body_words ws breaks = some []
  | [], _ => rfl
  | (w, s) :: rest, hall => by
    have hs : s ≤ b1 := hall (w, s) (List.mem_cons_self _ _)
    have ih := filter_body_words_skip h1 rest
      fun p hp => hall p (List.mem_cons_of_mem _ hp)
    simp only [filter_body_words, h1, Option.bind_eq_bind, Option.some_bind]
    rw [if_neg (not_lt.mpr hs)]
    exact ih

theorem parseWord_eq {w : Word} {p : String × ℤ}
    (h : parseWord w = some p) : p = (wordText w, heightD w) := by
  unfold parseWord at h
  cases hmx : listMax (yCoords w) with
  | none => rw [hmx] at h; cases listMin (yCoords w) <;> simp at h
  | some mx =>
    cases hmn : listMin (yCoords w) with
    | none => rw [hmx, hmn] at h; simp at h
    | some mn =>
      rw [hmx, hmn] at h
      simp only [Option.some_inj] at h
      rw [← h]
      unfold heightD
      rw [hmx, hmn]
      rfl

theorem parseWords_eq :
    ∀ {l : List Word} {ps : List (String × ℤ)}, parseWords l = some ps →
      ps = l.map fun w => (wordText w, heightD w) := by
  intro l
  induction l with
  | nil => intro ps h; simp only [parseWords, Option.some_inj] at h; simp [← h]
  | cons w ws ih =>
    intro ps h
    unfold parseWords at h
    cases hw : parseWord w with
    | none => rw [hw] at h; simp at h
    | some p =>
      cases hws : parseWords ws with
      | none => rw [hw, hws] at h; simp at h
      | some qs =>
        rw [hw, hws] at h
        simp only [Option.some_inj] at h
        rw [← h, List.map_cons, parseWord_eq hw, ih hws]

theorem foldl_min_le_foldl_max :
    ∀ (xs : List ℤ) (a b : ℤ), a ≤ b → xs.foldl min a ≤ xs.foldl max b := by
  intro xs
  induction xs with
  | nil => intro a b h; simpa using h
  | cons x xs ih =>
    intro a b h
    exact ih (min a x) (max b x)
      (le_trans (min_le_left a x) (le_trans h (le_max_left b x)))

theorem parseWord_height_nonneg {w : Word} {t : String} {h : ℤ}
    (hp : parseWord w = some (t, h)) : 0 ≤ h := by
  unfold parseWord at hp
  cases hys : yCoords w with
  | nil =>
    rw [show listMax (yCoords w) = none by rw [hys]; rfl] at hp
    simp at hp
  | cons y ys =>
    have hmx : listMax (yCoords w) = some (ys.foldl max y) := by rw [hys]; rfl
    have hmn : listMin (yCoords w) = some (ys.foldl min y) := by rw [hys]; rfl
    rw [hmx, hmn] at hp
    simp only [Option.some_inj, Prod.mk.injEq] at hp
    rw [← hp.2]
    exact sub_nonneg.mpr (foldl_min_le_foldl_max ys y y le_rfl)

theorem parseWords_heights_nonneg :
    ∀ {l : List Word} {ps : List (String × ℤ)}, parseWords l = some ps →
      ∀ p ∈ ps, 0 ≤ p.2 := by
  intro l
  induction l with
  | nil =>
    intro ps h p hp
    simp only [parseWords, Option.some_inj] at h
    rw [← h] at hp
    simp at hp
  | cons w ws ih =>
    intro ps h p hp
    unfold parseWords at h
    cases hw : parseWord w with
    | none => rw [hw] at h; simp at h
    | some q =>
      cases hws : parseWords ws with
      | none => rw [hw, hws] at h; simp at h
      | some qs =>
        rw [hw, hws] at h
        simp only [Option.some_inj] at h
        rw [← h] at hp
        rcases List.mem_cons.mp hp with hpq | hpqs
        · rcases q with ⟨t, ht⟩
          rw [hpq]
          exact parseWord_height_nonneg hw
        · exact ih hws p hpqs

theorem getElem?_eq_some_getD {l : List ℤ} {i : ℕ} (h : i < l.length) :
    l[i]? = some (l.getD i 0) := by
  rw [List.getElem?_eq_getElem h, List.getD_eq_getElem l 0 h]

/-! ## Claim theorems -/

/-- C1: the claim says `filter_body_words` returns an empty sequence,
without any out-of-bounds access, whenever `breaks` has fewer than 3
elements. The code has no such guard: with a non-empty pair list it reads
`breaks[1]` unconditionally, and reads `breaks[2]` as soon as some height
exceeds `breaks[1]`, raising IndexError (modelled as `none`) in both
situations. -/
theorem filter_body_words_short_breaks_raises :
    filter_body_words [("a", (5 : ℤ))] [] = none ∧
    filter_body_words [("a", (5 : ℤ))] [(0 : ℤ), 1] = none := by
  constructor <;> decide

/-- C2: on any OCR result where `parse_ocr_data` returns, the two returned
sequences are parallel (equal length, index i of both describing word i of
the document reading order: page-major, then block, then paragraph, then
word), the i-th text is the separator-free concatenation of the i-th word's
symbols' texts, and the i-th height is max minus min of that word's
bounding-polygon y-coordinates. -/
theorem parse_ocr_data_parallel_reading_order (d : OcrData)
    (ws : List String) (hs : List ℤ)
    (h : parse_ocr_data d = some (ws, hs)) :
    ws.length = hs.length ∧
    ws = (docWords d).map wordText ∧
    hs = (docWords d).map heightD := by
  unfold parse_ocr_data at h
  cases hps : parseWords (docWords d) with
  | none => rw [hps] at h; simp at h
  | some ps =>
    rw [hps] at h
    simp only [Option.map_some', Option.some_inj, Prod.mk.injEq] at h
    have hchar := parseWords_eq hps
    refine ⟨?_, ?_, ?_⟩
    · rw [← h.1, ← h.2, List.length_map, List.length_map]
    · rw [← h.1, hchar, List.map_map]
      rfl
    · rw [← h.2, hchar, List.map_map]
      rfl

/-- C2 witness: the spec's two-page scenario (word "Alpha" of height 10 on
page 1, word "Beta" of height 50 on page 2). -/
theorem parse_ocr_data_parallel_reading_order_witness :
    (["Alpha", "Beta"] : List String).length = ([10, 50] : List ℤ).length ∧
    ["Alpha", "Beta"] = (docWords sampleDoc).map wordText ∧
    ([10, 50] : List ℤ) = (docWords sampleDoc).map heightD :=
  parse_ocr_data_parallel_reading_order sampleDoc ["Alpha", "Beta"] [10, 50]
    (by decide)

/-- C3: with at least 3 breaks, `filter_body_words` returns exactly the
words of the pairs whose height lies in the half-open band
`(breaks[1], breaks[2]]`, in input order (so it never returns a word whose
height falls outside that band). -/
theorem filter_body_words_band (ws : List (String × ℤ)) (breaks : List ℤ)
    (h3 : 3 ≤ breaks.length) :
    filter_body_words ws breaks =
      some ((ws.filter fun p =>
        decide (breaks.getD 1 0 < p.2 ∧ p.2 ≤ breaks.getD 2 0)).map Prod.fst) :=
  filter_body_words_eq_filter
    (getElem?_eq_some_getD (by omega))
    (getElem?_eq_some_getD (by omega)) ws

/-- C3 witness: breaks `[0, 2, 5]` on heights 1, 3, 10 keep exactly the
word of height 3. -/
theorem filter_body_words_band_witness :
    filter_body_words [("a", (1 : ℤ)), ("b", 3), ("c", 10)]
      [(0 : ℤ), 2, 5] = some ["b"] := by
  have h := filter_body_words_band [("a", (1 : ℤ)), ("b", 3), ("c", 10)]
    [(0 : ℤ), 2, 5] (by decide)
  rw [h]
  decide

/-- C4: on a non-empty height sequence with fewer distinct values than the
requested band count, `cluster_body_sizes` invokes the clustering
collaborator with `max 1 (number of distinct values)` classes instead, and
(under the collaborator's band-count contract) succeeds; with at least as
many distinct values as requested it clusters with exactly the requested
count. -/
theorem cluster_body_sizes_band_reduction
    (jenks : List ℤ → ℕ → Option (List ℤ)) (sizes : List ℤ) (n : ℕ)
    (hj : JenksOk jenks) (hne : sizes ≠ []) :
    (distinctCount sizes < n →
      cluster_body_sizes jenks sizes n =
        jenks sizes (max 1 (distinctCount sizes)) ∧
      ∃ bs, cluster_body_sizes jenks sizes n = some bs ∧
        bs.length = max 1 (distinctCount sizes) + 1) ∧
    (n ≤ distinctCount sizes →
      cluster_body_sizes jenks sizes n = jenks sizes n) := by
  have hu : ¬ distinctCount sizes = 0 :=
    fun h0 => hne (distinctCount_eq_zero.mp h0)
  have hu1 : 1 ≤ distinctCount sizes := Nat.pos_of_ne_zero hu
  constructor
  · intro hlt
    have heq : cluster_body_sizes jenks sizes n =
        jenks sizes (max 1 (distinctCount sizes)) := by
      unfold cluster_body_sizes
      rw [if_neg hu, if_pos hlt]
    refine ⟨heq, ?_⟩
    obtain ⟨bs, hbs, hlen⟩ := hj sizes (max 1 (distinctCount sizes)) hne
      (le_max_left _ _) (le_of_eq (max_eq_right hu1))
    exact ⟨bs, by rw [heq, hbs], hlen⟩
  · intro hge
    unfold cluster_body_sizes
    rw [if_neg hu, if_neg (not_lt.mpr hge)]

/-- C4 witness: heights `[1, 2]` have 2 distinct values, fewer than the
requested 3 bands, so the collaborator is called with 2 classes. -/
theorem cluster_body_sizes_band_reduction_witness :
    cluster_body_sizes jenksReplicate [(1 : ℤ), 2] 3 = some [0, 0, 0] := by
  have h := (cluster_body_sizes_band_reduction jenksReplicate [(1 : ℤ), 2] 3
    jenksReplicate_ok (by decide)).1 (by decide)
  rw [h.1]
  decide

/-- C5: an OCR result with zero words degrades to empty output everywhere:
the parser returns two empty sequences, clustering the empty height
sequence returns an empty breaks sequence for any collaborator and any
requested band count, and filtering the empty pair sequence returns an
empty word sequence for any breaks. -/
theorem empty_ocr_degrades (d : OcrData) (hd : docWords d = []) :
    parse_ocr_data d = some ([], []) ∧
    (∀ (jenks : List ℤ → ℕ → Option (List ℤ)) (n : ℕ),
      cluster_body_sizes jenks [] n = some []) ∧
    (∀ breaks : List ℤ, filter_body_words [] breaks = some []) := by
  refine ⟨?_, ?_, fun _ => rfl⟩
  · unfold parse_ocr_data
    rw [hd]
    rfl
  · intro jenks n
    simp [cluster_body_sizes, distinctCount, List.dedup_nil]

/-- C5 witness: the pipeline on an OCR result with no pages. -/
theorem empty_ocr_degrades_witness :
    parse_ocr_data emptyDoc = some ([], []) ∧
    cluster_body_sizes jenksReplicate [] 3 = some [] ∧
    filter_body_words [] [(7 : ℤ)] = some [] :=
  ⟨(empty_ocr_degrades emptyDoc rfl).1,
   (empty_ocr_degrades emptyDoc rfl).2.1 jenksReplicate 3,
   (empty_ocr_degrades emptyDoc rfl).2.2 [(7 : ℤ)]⟩

/-- C6: the claim says both structural violations (a word with no symbols
and a bounding polygon with fewer than 2 vertices) are absorbed as
zero-text / zero-height. The code absorbs a symbol-less word (and a
1-vertex polygon), but a 0-vertex polygon makes `max()` raise ValueError
(modelled as `none`), aborting the whole traversal. -/
theorem parse_ocr_data_structural_violations :
    parse_ocr_data emptyPolygonDoc = none ∧
    parse_ocr_data noSymbolsDoc = some ([""], [0]) := by
  constructor <;> decide

/-- C7: heights `[20, 20, 20]` have one distinct value, so the band count
is reduced to 1; with the collaborator returning the 2-element breaks
`[20, 20]` (its minimum and maximum), `cluster_body_sizes` returns those
2-element breaks, and `filter_body_words` on them returns an empty result
without failing — `breaks[1] < 20` is false for every pair, so the chained
comparison short-circuits before the missing `breaks[2]` is read. -/
theorem degenerate_single_size
    (jenks : List ℤ → ℕ → Option (List ℤ)) (ws : List String)
    (hj : jenks [20, 20, 20] 1 = some [20, 20]) :
    cluster_body_sizes jenks [20, 20, 20] 3 = some [20, 20] ∧
    ([20, 20] : List ℤ).length = 2 ∧
    filter_body_words (ws.zip [20, 20, 20]) [(20 : ℤ), 20] = some [] := by
  refine ⟨?_, rfl, ?_⟩
  · have hd : distinctCount ([20, 20, 20] : List ℤ) = 1 := by decide
    unfold cluster_body_sizes
    rw [hd, if_neg (by omega), if_pos (by omega)]
    exact hj
  · have h1 : ([(20 : ℤ), 20] : List ℤ)[1]? = some 20 := rfl
    apply filter_body_words_skip h1
    intro p hp
    rcases p with ⟨a, b⟩
    have hb : b ∈ ([20, 20, 20] : List ℤ) := (List.of_mem_zip hp).2
    simp only [List.mem_cons, List.not_mem_nil, or_false] at hb
    rcases hb with hb | hb | hb <;> simp [hb]

/-- C7 witness: three words of height 20 with the collaborator stub
returning `[20, 20]`. -/
theorem degenerate_single_size_witness :
    cluster_body_sizes jenksConst2 [20, 20, 20] 3 = some [20, 20] ∧
    ([20, 20] : List ℤ).length = 2 ∧
    filter_body_words ((["a", "b", "c"]).zip [20, 20, 20])
      [(20 : ℤ), 20] = some [] :=
  degenerate_single_size jenksConst2 ["a", "b", "c"] rfl

/-- C8: on the OCR fallback path of `process_document_endpoint`, the text
handed to the speech-synthesis collaborator is exactly the space-joined
concatenation of the filtered body words — the words of the parser's
reading order whose height lies in `(breaks[1], breaks[2]]` — as one flat
string. -/
theorem ocr_raw_text_spec
    (jenks : List ℤ → ℕ → Option (List ℤ)) (d : OcrData)
    (words : List String) (sizes breaks : List ℤ)
    (hp : parse_ocr_data d = some (words, sizes))
    (hc : cluster_body_sizes jenks sizes 3 = some breaks)
    (h3 : 3 ≤ breaks.length) :
    ocr_raw_text jenks d =
      some (String.intercalate " "
        (((words.zip sizes).filter fun p =>
          decide (breaks.getD 1 0 < p.2 ∧ p.2 ≤ breaks.getD 2 0)).map
            Prod.fst)) := by
  have h1 : breaks[1]? = some (breaks.getD 1 0) :=
    getElem?_eq_some_getD (by omega)
  have h2 : breaks[2]? = some (breaks.getD 2 0) :=
    getElem?_eq_some_getD (by omega)
  have hf := filter_body_words_eq_filter h1 h2 (words.zip sizes)
  unfold ocr_raw_text
  rw [hp]
  simp only [Option.bind_eq_bind, Option.some_bind]
  rw [hc]
  simp only [Option.some_bind]
  rw [hf]
  rfl

/-- C8 witness: on the two-page sample document with breaks `[0, 20, 60]`,
only "Beta" (height 50) lies in the band `(20, 60]`, so the synthesized
text is the flat string "Beta". -/
theorem ocr_raw_text_spec_witness :
    ocr_raw_text jenksConst3 sampleDoc = some "Beta" := by
  have h := ocr_raw_text_spec jenksConst3 sampleDoc ["Alpha", "Beta"]
    [10, 50] [0, 20, 60] (by decide) (by decide) (by decide)
  rw [h]
  decide

/-- C9: under the collaborator's band-count contract and a positive
requested band count, `cluster_body_sizes` returns empty breaks exactly on
the empty height sequence, and on any non-empty height sequence it returns
at least 2 boundary values. -/
theorem cluster_body_sizes_empty_iff
    (jenks : List ℤ → ℕ → Option (List ℤ)) (sizes : List ℤ) (n : ℕ)
    (hj : JenksOk jenks) (hn : 1 ≤ n) :
    (cluster_body_sizes jenks sizes n = some [] ↔ sizes = []) ∧
    (sizes ≠ [] →
      ∃ bs, cluster_body_sizes jenks sizes n = some bs ∧ 2 ≤ bs.length) := by
  have main : sizes ≠ [] →
      ∃ bs, cluster_body_sizes jenks sizes n = some bs ∧ 2 ≤ bs.length := by
    intro hne
    have hu : ¬ distinctCount sizes = 0 :=
      fun h0 => hne (distinctCount_eq_zero.mp h0)
    have hu1 : 1 ≤ distinctCount sizes := Nat.pos_of_ne_zero hu
    by_cases hlt : distinctCount sizes < n
    · obtain ⟨bs, hbs, hlen⟩ := hj sizes (max 1 (distinctCount sizes)) hne
        (le_max_left _ _) (le_of_eq (max_eq_right hu1))
      refine ⟨bs, ?_, by omega⟩
      unfold cluster_body_sizes
      rw [if_neg hu, if_pos hlt]
      exact hbs
    · obtain ⟨bs, hbs, hlen⟩ := hj sizes n hne hn (not_lt.mp hlt)
      refine ⟨bs, ?_, by omega⟩
      unfold cluster_body_sizes
      rw [if_neg hu, if_neg hlt]
      exact hbs
  refine ⟨⟨?_, ?_⟩, main⟩
  · intro h
    by_contra hne
    obtain ⟨bs, hbs, hlen⟩ := main hne
    rw [h, Option.some_inj] at hbs
    rw [← hbs] at hlen
    simp at hlen
  · intro h
    rw [h]
    simp [cluster_body_sizes, distinctCount, List.dedup_nil]

/-- C9 witness: one height yields at least 2 boundary values. -/
theorem cluster_body_sizes_empty_iff_witness :
    ∃ bs, cluster_body_sizes jenksReplicate [(5 : ℤ)] 3 = some bs ∧
      2 ≤ bs.length :=
  (cluster_body_sizes_empty_iff jenksReplicate [(5 : ℤ)] 3
    jenksReplicate_ok (by decide)).2 (by decide)

/-- C10: a word whose polygon has at least one vertex (i.e. on which
`parseWord` returns) gets a non-negative height, and consequently every
element of the height sequence `parse_ocr_data` feeds to
`cluster_body_sizes` is non-negative. -/
theorem parse_heights_nonneg :
    (∀ (w : Word) (t : String) (h : ℤ),
      parseWord w = some (t, h) → 0 ≤ h) ∧
    (∀ (d : OcrData) (ws : List String) (hs : List ℤ),
      parse_ocr_data d = some (ws, hs) → ∀ h ∈ hs, 0 ≤ h) := by
  constructor
  · intro w t h hp
    exact parseWord_height_nonneg hp
  · intro d ws hs h x hx
    unfold parse_ocr_data at h
    cases hps : parseWords (docWords d) with
    | none => rw [hps] at h; simp at h
    | some ps =>
      rw [hps] at h
      simp only [Option.map_some', Option.some_inj, Prod.mk.injEq] at h
      rw [← h.2] at hx
      obtain ⟨p, hpmem, hpeq⟩ := List.mem_map.mp hx
      rw [← hpeq]
      exact parseWords_heights_nonneg hps p hpmem

/-- C10 witness: the first height of the sample document is non-negative. -/
theorem parse_heights_nonneg_witness : (0 : ℤ) ≤ 10 :=
  parse_heights_nonneg.2 sampleDoc ["Alpha", "Beta"] [10, 50]
    (by decide) 10 (by decide)

end PdfToAudio
